import Mathlib

/-!
Verification of the perspective generation and distribution engine of the
GoogleHackthon-IDKAI repository (Module 3 backend).

The Python source (`src/module3/backend/main.py` and
`src/module3/backend/main_modules/api_request.py`) is shallowly embedded
below.  Python floats are modelled as rationals (`ℚ`); Python dictionaries
holding arbitrary JSON-ish values are modelled by small inductive types that
keep exactly the distinctions the code inspects (numeric vs. non-numeric vs.
absent).  Python `round` (banker's rounding, half to even) is modelled
exactly on `ℚ`.  The `while` reconciliation loops of
`allocate_category_slots` are modelled with explicit fuel equal to the exact
number of iterations the loop condition permits, which reproduces the
Python control flow (each iteration moves `allocated` by exactly one toward
`target`, or breaks).
-/

namespace IDKAI

/-- A Python value as far as `float(value)` conversion is concerned:
either something convertible to a float (modelled by the rational it
denotes) or something for which `float` raises `TypeError`/`ValueError`. -/
inductive Val where
  | num (q : ℚ)
  | other
deriving DecidableEq

/-- `clamp_bias` from `src/module3/backend/main.py`:
`max(0.0, min(1.0, float(value)))`, with 0.5 on conversion failure
(including a missing key, i.e. `None`). -/
def clamp_bias (value : Option Val) : ℚ :=
  match value with
  | some (.num q) => max 0 (min 1 q)
  | _ => 0.5

/-- `safe_significance` from `src/module3/backend/main.py`:
`max(0.0, float(value))`, with 0.0 on conversion failure. -/
def safe_significance (value : Option Val) : ℚ :=
  match value with
  | some (.num q) => max 0 q
  | _ => 0

/-- `determine_target_size` from `src/module3/backend/main.py`. -/
def determine_target_size (total : ℤ) : ℤ :=
  if total ≤ 0 then 0
  else if 7 ≤ total ∧ total ≤ 14 then 6
  else if 15 ≤ total ∧ total ≤ 28 then 14
  else if 29 ≤ total ∧ total ≤ 77 then 21
  else if 78 ≤ total ∧ total ≤ 136 then 28
  else total

/-- The three bias categories, in the order of `CATEGORY_KEYS`. -/
inductive Category where
  | leftist
  | rightist
  | common
deriving DecidableEq, Fintype

/-- A map from the three category keys to integers (a Python dict whose
only consulted keys are the three category keys; `get(key, 0)` is total). -/
structure Alloc where
  leftist : ℤ
  rightist : ℤ
  common : ℤ
deriving DecidableEq

def Alloc.get (a : Alloc) : Category → ℤ
  | .leftist => a.leftist
  | .rightist => a.rightist
  | .common => a.common

def Alloc.set (a : Alloc) : Category → ℤ → Alloc
  | .leftist, v => { a with leftist := v }
  | .rightist, v => { a with rightist := v }
  | .common, v => { a with common := v }

def Alloc.sum (a : Alloc) : ℤ := a.leftist + a.rightist + a.common

/-- Python `round` on a rational: round half to even. -/
def pyRound (q : ℚ) : ℤ :=
  let f := ⌊q⌋
  let frac := q - f
  if frac < 1/2 then f
  else if (1:ℚ)/2 < frac then f + 1
  else if f % 2 = 0 then f else f + 1

/-- Lexicographic strict order on pairs of integers, as Python compares
the tuples used as `max(..., key=...)` keys. -/
def lexLt (a b : ℤ × ℤ) : Prop := a.1 < b.1 ∨ (a.1 = b.1 ∧ a.2 < b.2)

instance : DecidableRel lexLt := fun a b => by
  unfold lexLt; infer_instance

/-- Python `max(CATEGORY_KEYS, key=f)`: the first category (in the order
leftist, rightist, common) whose key tuple is maximal.  Python keeps the
current best and replaces it only when a later key is strictly greater. -/
def argmaxKey (f : Category → ℤ × ℤ) : Category :=
  if lexLt (f .leftist) (f .rightist) then
    if lexLt (f .rightist) (f .common) then .common else .rightist
  else
    if lexLt (f .leftist) (f .common) then .common else .leftist

/-- First reconciliation loop of `allocate_category_slots`
(`while allocated > target`): decrement the category with the largest
`(provisional, pool size)` key; break if that category is already 0.
`fuel` is the exact iteration budget `allocated - target`. -/
def decLoop (counts : Alloc) : Alloc → ℤ → ℕ → Alloc × ℤ
  | prov, allocated, 0 => (prov, allocated)
  | prov, allocated, fuel + 1 =>
    let c := argmaxKey fun k => (prov.get k, counts.get k)
    if prov.get c = 0 then (prov, allocated)
    else decLoop counts (prov.set c (prov.get c - 1)) (allocated - 1) fuel

/-- Second reconciliation loop of `allocate_category_slots`
(`while allocated < target`): increment the category with the largest
`(remaining capacity, pool size)` key; break if it has no capacity.
`fuel` is the exact iteration budget `target - allocated`. -/
def incLoop (counts : Alloc) : Alloc → ℤ → ℕ → Alloc × ℤ
  | prov, allocated, 0 => (prov, allocated)
  | prov, allocated, fuel + 1 =>
    let c := argmaxKey fun k => (counts.get k - prov.get k, counts.get k)
    if counts.get c - prov.get c ≤ 0 then (prov, allocated)
    else incLoop counts (prov.set c (prov.get c + 1)) (allocated + 1) fuel

/-- `allocate_category_slots` from `src/module3/backend/main.py`. -/
def allocate_category_slots (counts : Alloc) (target : ℤ) : Alloc :=
  if target ≤ 0 then ⟨0, 0, 0⟩
  else
    let cnt : Alloc := ⟨max counts.leftist 0, max counts.rightist 0, max counts.common 0⟩
    let total_available := cnt.sum
    if total_available = 0 ∨ total_available ≤ target then cnt
    else
      let provisional : Alloc :=
        { leftist :=
            if cnt.leftist = 0 then 0
            else min cnt.leftist (pyRound ((cnt.leftist : ℚ) / (total_available : ℚ) * target))
          rightist :=
            if cnt.rightist = 0 then 0
            else min cnt.rightist (pyRound ((cnt.rightist : ℚ) / (total_available : ℚ) * target))
          common :=
            if cnt.common = 0 then 0
            else min cnt.common (pyRound ((cnt.common : ℚ) / (total_available : ℚ) * target)) }
      let allocated := provisional.sum
      let step1 := decLoop counts provisional allocated (allocated - target).toNat
      let step2 := incLoop counts step1.1 step1.2 (target - step1.2).toNat
      step2.1

/-! ### Correctness of `allocate_category_slots` -/

lemma Alloc.sum_eq_get (a : Alloc) :
    a.sum = a.get .leftist + a.get .rightist + a.get .common := rfl

lemma Alloc.get_set (a : Alloc) (c : Category) (v : ℤ) (k : Category) :
    (a.set c v).get k = if k = c then v else a.get k := by
  rcases c <;> rcases k <;> simp [Alloc.set, Alloc.get]

lemma Alloc.sum_set (a : Alloc) (c : Category) (v : ℤ) :
    (a.set c v).sum = a.sum - a.get c + v := by
  rcases c <;> simp [Alloc.set, Alloc.get, Alloc.sum] <;> ring

lemma argmaxKey_fst_ge (f : Category → ℤ × ℤ) (k : Category) :
    (f k).1 ≤ (f (argmaxKey f)).1 := by
  unfold argmaxKey
  rcases k <;> split_ifs with h1 h2 <;> simp [lexLt] at * <;> omega

lemma pyRound_nonneg (q : ℚ) (h : 0 ≤ q) : 0 ≤ pyRound q := by
  have hf : (0 : ℤ) ≤ ⌊q⌋ := by
    rw [Int.le_floor]; exact_mod_cast h
  simp only [pyRound]
  split_ifs <;> omega

lemma decLoop_spec (counts : Alloc) (target : ℤ) :
    ∀ (fuel : ℕ) (prov : Alloc) (a : ℤ),
      0 < target →
      (∀ k, 0 ≤ prov.get k ∧ prov.get k ≤ counts.get k) →
      a = prov.sum → a = target + fuel →
      (∀ k, 0 ≤ (decLoop counts prov a fuel).1.get k ∧
            (decLoop counts prov a fuel).1.get k ≤ counts.get k) ∧
      (decLoop counts prov a fuel).2 = (decLoop counts prov a fuel).1.sum ∧
      (decLoop counts prov a fuel).2 = target := by
  intro fuel
  induction fuel with
  | zero =>
    intro prov a ht hb hs hf
    simp only [decLoop]
    exact ⟨hb, hs, by omega⟩
  | succ n ih =>
    intro prov a ht hb hs hf
    set c := argmaxKey (fun k => (prov.get k, counts.get k)) with hc
    have hmax : ∀ k, prov.get k ≤ prov.get c := by
      intro k
      have := argmaxKey_fst_ge (fun k => (prov.get k, counts.get k)) k
      simpa [hc] using this
    have hpos : 0 < prov.get c := by
      by_contra hle
      push_neg at hle
      have h1 := hmax .leftist
      have h2 := hmax .rightist
      have h3 := hmax .common
      have b1 := hb Category.leftist
      have b2 := hb Category.rightist
      have b3 := hb Category.common
      have := prov.sum_eq_get
      omega
    have hne : ¬ prov.get c = 0 := by omega
    simp only [decLoop, ← hc, if_neg hne]
    have hb2 : ∀ k, 0 ≤ (prov.set c (prov.get c - 1)).get k ∧
        (prov.set c (prov.get c - 1)).get k ≤ counts.get k := by
      intro k
      rw [Alloc.get_set]
      split_ifs with hk
      · subst hk; exact ⟨by omega, by have := (hb c).2; omega⟩
      · exact hb k
    have hs2 : a - 1 = (prov.set c (prov.get c - 1)).sum := by
      rw [Alloc.sum_set]; omega
    exact ih (prov.set c (prov.get c - 1)) (a - 1) ht hb2 hs2 (by omega)

lemma incLoop_spec (counts : Alloc) (target : ℤ) :
    ∀ (fuel : ℕ) (prov : Alloc) (a : ℤ),
      target ≤ counts.sum →
      (∀ k, 0 ≤ prov.get k ∧ prov.get k ≤ counts.get k) →
      a = prov.sum → a = target - fuel →
      (∀ k, 0 ≤ (incLoop counts prov a fuel).1.get k ∧
            (incLoop counts prov a fuel).1.get k ≤ counts.get k) ∧
      (incLoop counts prov a fuel).2 = (incLoop counts prov a fuel).1.sum ∧
      (incLoop counts prov a fuel).2 = target := by
  intro fuel
  induction fuel with
  | zero =>
    intro prov a ht hb hs hf
    simp only [incLoop]
    exact ⟨hb, hs, by omega⟩
  | succ n ih =>
    intro prov a ht hb hs hf
    set c := argmaxKey (fun k => (counts.get k - prov.get k, counts.get k)) with hc
    have hmax : ∀ k, counts.get k - prov.get k ≤ counts.get c - prov.get c := by
      intro k
      have := argmaxKey_fst_ge (fun k => (counts.get k - prov.get k, counts.get k)) k
      simpa [hc] using this
    have hcap : 0 < counts.get c - prov.get c := by
      by_contra hle
      push_neg at hle
      have h1 := hmax .leftist
      have h2 := hmax .rightist
      have h3 := hmax .common
      have e1 := prov.sum_eq_get
      have e2 := counts.sum_eq_get
      omega
    have hne : ¬ counts.get c - prov.get c ≤ 0 := by omega
    simp only [incLoop, ← hc, if_neg hne]
    have hb2 : ∀ k, 0 ≤ (prov.set c (prov.get c + 1)).get k ∧
        (prov.set c (prov.get c + 1)).get k ≤ counts.get k := by
      intro k
      rw [Alloc.get_set]
      split_ifs with hk
      · subst hk; exact ⟨by have := (hb c).1; omega, by omega⟩
      · exact hb k
    have hs2 : a + 1 = (prov.set c (prov.get c + 1)).sum := by
      rw [Alloc.sum_set]; omega
    exact ih (prov.set c (prov.get c + 1)) (a + 1) ht hb2 hs2 (by omega)

lemma alloc_pipeline_spec (counts prov0 : Alloc) (target : ℤ)
    (h1 : 0 < target) (h2 : target ≤ counts.sum)
    (hb : ∀ k, 0 ≤ prov0.get k ∧ prov0.get k ≤ counts.get k) :
    (∀ k,
      0 ≤ ((incLoop counts
              (decLoop counts prov0 prov0.sum (prov0.sum - target).toNat).1
              (decLoop counts prov0 prov0.sum (prov0.sum - target).toNat).2
              (target - (decLoop counts prov0 prov0.sum (prov0.sum - target).toNat).2).toNat).1.get k) ∧
      ((incLoop counts
              (decLoop counts prov0 prov0.sum (prov0.sum - target).toNat).1
              (decLoop counts prov0 prov0.sum (prov0.sum - target).toNat).2
              (target - (decLoop counts prov0 prov0.sum (prov0.sum - target).toNat).2).toNat).1.get k) ≤ counts.get k) ∧
    ((incLoop counts
              (decLoop counts prov0 prov0.sum (prov0.sum - target).toNat).1
              (decLoop counts prov0 prov0.sum (prov0.sum - target).toNat).2
              (target - (decLoop counts prov0 prov0.sum (prov0.sum - target).toNat).2).toNat).1.sum = target) := by
  rcases le_or_lt prov0.sum target with ha | ha
  · have hfuel : (prov0.sum - target).toNat = 0 := by omega
    rw [hfuel]
    simp only [decLoop]
    have key := incLoop_spec counts target (target - prov0.sum).toNat prov0 prov0.sum
      h2 hb rfl (by omega)
    exact ⟨key.1, by have := key.2.1; have := key.2.2; omega⟩
  · have key := decLoop_spec counts target (prov0.sum - target).toNat prov0 prov0.sum
      h1 hb rfl (by omega)
    obtain ⟨kb, ks, kt⟩ := key
    have hfuel2 : (target - (decLoop counts prov0 prov0.sum (prov0.sum - target).toNat).2).toNat = 0 := by
      omega
    rw [hfuel2]
    simp only [incLoop]
    exact ⟨kb, by omega⟩

lemma allocate_spec (counts : Alloc) (target : ℤ)
    (hc : ∀ k, 0 ≤ counts.get k) (h1 : 0 < target) (h2 : target < counts.sum) :
    (∀ k, 0 ≤ (allocate_category_slots counts target).get k ∧
          (allocate_category_slots counts target).get k ≤ counts.get k) ∧
    (allocate_category_slots counts target).sum = target := by
  have hl : 0 ≤ counts.leftist := hc .leftist
  have hr : 0 ≤ counts.rightist := hc .rightist
  have hcm : 0 ≤ counts.common := hc .common
  have hsum : counts.leftist + counts.rightist + counts.common = counts.sum := rfl
  set prov0 : Alloc :=
    { leftist :=
        if counts.leftist = 0 then 0
        else min counts.leftist (pyRound ((counts.leftist : ℚ) / (counts.sum : ℚ) * target))
      rightist :=
        if counts.rightist = 0 then 0
        else min counts.rightist (pyRound ((counts.rightist : ℚ) / (counts.sum : ℚ) * target))
      common :=
        if counts.common = 0 then 0
        else min counts.common (pyRound ((counts.common : ℚ) / (counts.sum : ℚ) * target)) }
    with hprov0
  have hqsum : (0:ℚ) ≤ (counts.sum : ℚ) := by
    have : (0:ℤ) ≤ counts.sum := by omega
    exact_mod_cast this
  have hqt : (0:ℚ) ≤ (target : ℚ) := by exact_mod_cast h1.le
  have hshare : ∀ x : ℤ, 0 ≤ x →
      (0:ℚ) ≤ (x : ℚ) / (counts.sum : ℚ) * target := by
    intro x hx
    exact mul_nonneg (div_nonneg (by exact_mod_cast hx) hqsum) hqt
  have hb : ∀ k, 0 ≤ prov0.get k ∧ prov0.get k ≤ counts.get k := by
    intro k
    rcases k <;> simp only [hprov0, Alloc.get] <;> split_ifs with h
    · exact ⟨le_refl 0, hl⟩
    · exact ⟨le_min hl (pyRound_nonneg _ (hshare _ hl)), min_le_left _ _⟩
    · exact ⟨le_refl 0, hr⟩
    · exact ⟨le_min hr (pyRound_nonneg _ (hshare _ hr)), min_le_left _ _⟩
    · exact ⟨le_refl 0, hcm⟩
    · exact ⟨le_min hcm (pyRound_nonneg _ (hshare _ hcm)), min_le_left _ _⟩
  have heq : allocate_category_slots counts target =
      (incLoop counts
        (decLoop counts prov0 prov0.sum (prov0.sum - target).toNat).1
        (decLoop counts prov0 prov0.sum (prov0.sum - target).toNat).2
        (target - (decLoop counts prov0 prov0.sum (prov0.sum - target).toNat).2).toNat).1 := by
    simp only [allocate_category_slots]
    rw [if_neg (show ¬ target ≤ 0 by omega)]
    rw [max_eq_left hl, max_eq_left hr, max_eq_left hcm]
    rw [if_neg (show ¬ (Alloc.sum ⟨counts.leftist, counts.rightist, counts.common⟩ = 0 ∨
        Alloc.sum ⟨counts.leftist, counts.rightist, counts.common⟩ ≤ target) by
      simp only [Alloc.sum]; omega)]
  rw [heq]
  exact alloc_pipeline_spec counts prov0 target h1 h2.le hb

/-! ### `distribute_perspectives` -/

/-- The fields of an input dictionary item that `distribute_perspectives`
inspects; `tag` models the identity of the item (all its other fields). -/
structure PDict where
  bias_x : Option Val
  significance_y : Option Val
  tag : ℕ
deriving DecidableEq

/-- An element of the input list handed to `distribute_perspectives`:
either a dictionary or any non-dict value (which the code skips). -/
inductive RawItem where
  | dict (d : PDict)
  | notDict
deriving DecidableEq

/-- A normalized item: the result of copying a dict and overwriting
`bias_x` with `clamp_bias` and `significance_y` with `safe_significance`. -/
structure NormItem where
  bias_x : ℚ
  significance_y : ℚ
  tag : ℕ
deriving DecidableEq

def LEFTIST_THRESHOLD : ℚ := 0.428
def RIGHTIST_THRESHOLD : ℚ := 0.571

def normalize (d : PDict) : NormItem :=
  { bias_x := clamp_bias d.bias_x
    significance_y := safe_significance d.significance_y
    tag := d.tag }

/-- The dict elements of the input, in order (non-dicts are skipped). -/
def dictsOf (perspectives : List RawItem) : List PDict :=
  perspectives.filterMap fun item =>
    match item with
    | .dict d => some d
    | .notDict => none

def normalizedItems (perspectives : List RawItem) : List NormItem :=
  (dictsOf perspectives).map normalize

/-- Classification into the three pools (the `if bias < L / elif bias > R /
else` chain of `distribute_perspectives`). -/
def pools (perspectives : List RawItem) : Category → List NormItem :=
  fun k =>
    let ns := normalizedItems perspectives
    match k with
    | .leftist => ns.filter fun n => decide (n.bias_x < LEFTIST_THRESHOLD)
    | .rightist => ns.filter fun n =>
        !decide (n.bias_x < LEFTIST_THRESHOLD) && decide (RIGHTIST_THRESHOLD < n.bias_x)
    | .common => ns.filter fun n =>
        !decide (n.bias_x < LEFTIST_THRESHOLD) && !decide (RIGHTIST_THRESHOLD < n.bias_x)

/-- The sort key used when trimming a pool:
`safe_significance(item.get("significance_y"))` applied to a normalized item. -/
def sig_key (n : NormItem) : ℚ := max 0 n.significance_y

/-- Python `sorted(pool, key=sig, reverse=True)`: a stable sort, descending
by `sig_key`, ties keeping original order.  Insertion sort with relation
`sig_key b ≤ sig_key a` is exactly such a sort. -/
def sortDescBySig (l : List NormItem) : List NormItem :=
  l.insertionSort fun a b => sig_key b ≤ sig_key a

/-- The three per-category lengths reported in a summary. -/
structure Counts3 where
  leftist : ℕ
  rightist : ℕ
  common : ℕ
deriving DecidableEq

def poolCounts (ps : Category → List NormItem) : Counts3 :=
  ⟨(ps .leftist).length, (ps .rightist).length, (ps .common).length⟩

/-- The summary dictionary built by `distribute_perspectives`.  Keys that
are present only in the stratified branch are modelled as `Option`s that
the direct branch leaves `none`. -/
structure AllocationSummary where
  total_generated : ℕ
  target_size : ℤ
  category_counts : Counts3
  pool_counts : Option Counts3
  allocations : Option Alloc
  selected_total : Option ℕ
  shortfall : Option ℤ
  distribution_source : String
deriving DecidableEq

/-- `distribute_perspectives` from `src/module3/backend/main.py`. -/
def distribute_perspectives (perspectives : List RawItem) :
    (Category → List NormItem) × AllocationSummary :=
  let ps := pools perspectives
  let total_generated :=
    (ps .leftist).length + (ps .rightist).length + (ps .common).length
  let target_size := determine_target_size (total_generated : ℤ)
  if (total_generated : ℤ) ≤ target_size then
    (ps,
      { total_generated := total_generated
        target_size := target_size
        category_counts := poolCounts ps
        pool_counts := none
        allocations := none
        selected_total := none
        shortfall := none
        distribution_source := "direct" })
  else
    let allocations := allocate_category_slots
      ⟨((ps .leftist).length : ℤ), ((ps .rightist).length : ℤ),
        ((ps .common).length : ℤ)⟩ target_size
    let selected : Category → List NormItem := fun k =>
      let pool := ps k
      let allocation := max (allocations.get k) 0
      if allocation = 0 ∨ pool = [] then []
      else (sortDescBySig pool).take allocation.toNat
    let selected_total :=
      (selected .leftist).length + (selected .rightist).length +
        (selected .common).length
    (selected,
      { total_generated := total_generated
        target_size := target_size
        category_counts := poolCounts selected
        pool_counts := some (poolCounts ps)
        allocations := some allocations
        selected_total := some selected_total
        shortfall := some (max 0 (target_size - (selected_total : ℤ)))
        distribution_source := "stratified_selection" })

/-! ### `PipelineRegistry`

`PipelineRegistry.start` runs entirely under the registry lock, so its
effect on the registry state is one atomic transition; we model that
transition.  The `_jobs` dict is an insertion-ordered association list
from session id to the job's `task.done()` flag (the only job attribute
`start` consults). -/

inductive RegError where
  | alreadyRunning
  | capacityExceeded
deriving DecidableEq

structure RegistryState where
  maxConcurrent : Option ℤ
  jobs : List (String × Bool)
deriving DecidableEq

/-- `PipelineRegistry.__init__`: store `max_concurrent` only when
`(max_concurrent or 0) > 0`, i.e. a cap of `None`, 0 or a negative number
means unbounded. -/
def mkRegistry (max_concurrent : Option ℤ) : RegistryState :=
  { maxConcurrent :=
      match max_concurrent with
      | some v => if 0 < v then some v else none
      | none => none
    jobs := [] }

/-- `self._jobs.get(session_id)`, projected to the `done` flag. -/
def lookupJob (jobs : List (String × Bool)) (sid : String) : Option Bool :=
  (jobs.find? fun j => j.1 == sid).map Prod.snd

/-- Number of jobs whose task is not done. -/
def activeCount (jobs : List (String × Bool)) : ℕ :=
  (jobs.filter fun j => !j.2).length

/-- `self._jobs[session_id] = job` on an insertion-ordered dict: replace in
place when the key exists, append otherwise.  The new job is not done. -/
def setJob (jobs : List (String × Bool)) (sid : String) : List (String × Bool) :=
  if jobs.any fun j => j.1 == sid then
    jobs.map fun j => if j.1 == sid then (j.1, false) else j
  else jobs ++ [(sid, false)]

/-- `self._max_concurrent is not None and len(active_jobs) >= self._max_concurrent`. -/
def capReached (st : RegistryState) : Bool :=
  match st.maxConcurrent with
  | some m => decide (m ≤ (activeCount st.jobs : ℤ))
  | none => false

/-- The state transition performed by `PipelineRegistry.start` under the
registry lock. -/
def registryStart (st : RegistryState) (sid : String) :
    Except RegError RegistryState :=
  if lookupJob st.jobs sid = some false then .error .alreadyRunning
  else if capReached st then .error .capacityExceeded
  else .ok { st with jobs := setJob st.jobs sid }

/-! ### `generate_perspectives` significance handling
(`src/module3/backend/main_modules/api_request.py`) -/

/-- `_extract_statement_and_significance`, significance part: prefer
`significance_score` when it is not `None`, fall back to `significance`;
default to 0.7 when absent or not convertible to float; clamp into
`[0, 1]` when out of range. -/
def extract_significance (significance_score significance : Option Val) : ℚ :=
  let significance_raw :=
    match significance_score with
    | some v => some v
    | none => significance
  let s : ℚ :=
    match significance_raw with
    | some (.num q) => q
    | some .other => 0.7
    | none => 0.7
  if 0 ≤ s ∧ s ≤ 1 then s else max 0 (min 1 s)

/-- The perspective count formula of `generate_perspectives`:
`n` is `ceil(128 * s ** 2.8 + 8)` for significance `s` (real-valued
exponentiation, stated as a relation because the exponent is not an
integer). -/
def perspective_count_spec (s : ℝ) (n : ℤ) : Prop :=
  n = ⌈(128 : ℝ) * s ^ (2.8 : ℝ) + 8⌉

/-! ### `execute_pipeline` failure handling
(`src/module3/backend/main.py`)

`execute_pipeline` interleaves awaits on the database and a call into the
generation backend.  We model the database as the pieces of state the
function writes (the session status and the `module3` module-result
record), and the generation backend as an oracle: an `Except` value saying
whether `api_request.generate_perspectives` raised (e.g. the
`RuntimeError` for a missing `VERTEX_ENDPOINT`) or returned a perspective
list.  The two pre-`try` awaits (`fetch_session_for_processing`,
`load_module3_input`) are oracles too: their exceptions propagate out of
`execute_pipeline` uncaught. -/

/-- The `module3` record payload: either a staged payload built by
`build_storage_payload`, or the failure payload built in the `except`
handler (whose `error` key holds `str(exc)`). -/
inductive M3Payload where
  | staged (stage : String) (perspectives : List RawItem)
      (final_output : Option ((Category → List NormItem) × AllocationSummary))
  | failed (error : String)

/-- Database state touched by `execute_pipeline`: the pipeline session's
status and the stored `module3` result (payload and record status). -/
structure Db where
  sessionStatus : String
  module3 : Option (M3Payload × String)

/-- Oracles for the awaited collaborators of one `execute_pipeline` call. -/
structure RunEnv where
  fetchErr : Option String
  loadErr : Option String
  genResult : Except String (List RawItem)

/-- The `except` handler of `execute_pipeline`: set the session status back
to `module2_completed`, then save a failed `module3` record whose payload
carries the error message. -/
def handleRunFailure (db : Db) (msg : String) : Db :=
  { db with
      sessionStatus := "module2_completed"
      module3 := some (.failed msg, "failed") }

/-- The `try` block of `execute_pipeline`, starting after the session
status was set to `module3_processing`.  Returns the database as mutated so
far together with the raised exception message, if any.  (The streaming
snapshots written by the progress callback only add intermediate
`processing` writes of the same record and do not change the final state.) -/
def pipelineBody (env : RunEnv) (db : Db) : Db × Option String :=
  match env.genResult with
  | .error e => (db, some e)
  | .ok base =>
    if base = [] then (db, some "Perspective generation produced no results.")
    else
      let db2 := { db with module3 := some (.staged "perspectives_ready" base none, "processing") }
      let dist := distribute_perspectives base
      let db3 := { db2 with module3 := some (.staged "completed" base (some dist), "completed") }
      ({ db3 with sessionStatus := "module3_completed" }, none)

/-- `execute_pipeline`: the first component is the resulting database
state, the second the exception propagated to the caller (only the
pre-`try` awaits can propagate one; the `try` block's failures are caught
and absorbed by the handler). -/
def execute_pipeline (env : RunEnv) (db : Db) : Db × Option String :=
  match env.fetchErr with
  | some e => (db, some e)
  | none =>
    match env.loadErr with
    | some e => (db, some e)
    | none =>
      let db1 := { db with sessionStatus := "module3_processing" }
      match pipelineBody env db1 with
      | (db2, some e) => (handleRunFailure db2 e, none)
      | (db2, none) => (db2, none)

/-! ### Helper decomposition of `distribute_perspectives` -/

def total_generated_of (perspectives : List RawItem) : ℕ :=
  (pools perspectives .leftist).length + (pools perspectives .rightist).length +
    (pools perspectives .common).length

def target_size_of (perspectives : List RawItem) : ℤ :=
  determine_target_size (total_generated_of perspectives : ℤ)

def allocations_of (perspectives : List RawItem) : Alloc :=
  allocate_category_slots
    ⟨((pools perspectives .leftist).length : ℤ), ((pools perspectives .rightist).length : ℤ),
      ((pools perspectives .common).length : ℤ)⟩ (target_size_of perspectives)

def selected_of (perspectives : List RawItem) : Category → List NormItem := fun k =>
  let pool := pools perspectives k
  let allocation := max ((allocations_of perspectives).get k) 0
  if allocation = 0 ∨ pool = [] then []
  else (sortDescBySig pool).take allocation.toNat

def selected_total_of (perspectives : List RawItem) : ℕ :=
  (selected_of perspectives .leftist).length + (selected_of perspectives .rightist).length +
    (selected_of perspectives .common).length

lemma distribute_eq (perspectives : List RawItem) :
    distribute_perspectives perspectives =
      if (total_generated_of perspectives : ℤ) ≤ target_size_of perspectives then
        (pools perspectives,
          { total_generated := total_generated_of perspectives
            target_size := target_size_of perspectives
            category_counts := poolCounts (pools perspectives)
            pool_counts := none
            allocations := none
            selected_total := none
            shortfall := none
            distribution_source := "direct" })
      else
        (selected_of perspectives,
          { total_generated := total_generated_of perspectives
            target_size := target_size_of perspectives
            category_counts := poolCounts (selected_of perspectives)
            pool_counts := some (poolCounts (pools perspectives))
            allocations := some (allocations_of perspectives)
            selected_total := some (selected_total_of perspectives)
            shortfall := some (max 0 (target_size_of perspectives -
              (selected_total_of perspectives : ℤ)))
            distribution_source := "stratified_selection" }) := by
  simp only [distribute_perspectives, total_generated_of, target_size_of,
    allocations_of, selected_of, selected_total_of]
  rfl

/-! ### Classification facts -/

lemma pools_partition_length (perspectives : List RawItem) :
    total_generated_of perspectives = (normalizedItems perspectives).length := by
  simp only [total_generated_of, pools]
  induction normalizedItems perspectives with
  | nil => rfl
  | cons a t ih =>
    by_cases h1 : a.bias_x < LEFTIST_THRESHOLD <;>
      by_cases h2 : RIGHTIST_THRESHOLD < a.bias_x <;>
        simp [List.filter, h1, h2] <;> omega

lemma normalizedItems_length (perspectives : List RawItem) :
    (normalizedItems perspectives).length = (dictsOf perspectives).length := by
  simp [normalizedItems]

/-! ### Stable sort facts -/

instance : IsTotal NormItem (fun a b => sig_key b ≤ sig_key a) :=
  ⟨fun a b => le_total (sig_key b) (sig_key a)⟩

instance : IsTrans NormItem (fun a b => sig_key b ≤ sig_key a) :=
  ⟨fun _ _ _ hab hbc => le_trans hbc hab⟩

lemma sortDescBySig_perm (l : List NormItem) : (sortDescBySig l).Perm l :=
  List.perm_insertionSort _ l

lemma sortDescBySig_sorted (l : List NormItem) :
    (sortDescBySig l).Sorted fun a b => sig_key b ≤ sig_key a :=
  List.sorted_insertionSort _ l

lemma sortDescBySig_filter_eq (l : List NormItem) (q : ℚ) :
    (sortDescBySig l).filter (fun n => sig_key n == q) =
      l.filter (fun n => sig_key n == q) := by
  induction l with
  | nil => rfl
  | cons a t ih =>
    simp only [sortDescBySig] at ih ⊢
    rw [List.insertionSort]
    rw [List.orderedInsert_eq_take_drop, List.filter_append]
    by_cases hq : sig_key a = q
    · have htw : (List.takeWhile (fun b => decide ¬(sig_key b ≤ sig_key a))
          (List.insertionSort (fun a b => sig_key b ≤ sig_key a) t)).filter
            (fun n => sig_key n == q) = [] := by
        rw [List.filter_eq_nil_iff]
        intro b hb
        have hpred := List.mem_takeWhile_imp hb
        simp only [decide_eq_true_eq] at hpred
        simp only [beq_iff_eq]
        intro hbq
        exact hpred (le_of_eq (hq ▸ hbq))
      have hdw : (List.dropWhile (fun b => decide ¬(sig_key b ≤ sig_key a))
            (List.insertionSort (fun a b => sig_key b ≤ sig_key a) t)).filter
              (fun n => sig_key n == q) =
          (List.insertionSort (fun a b => sig_key b ≤ sig_key a) t).filter
            (fun n => sig_key n == q) := by
        conv_rhs =>
          rw [← List.takeWhile_append_dropWhile
            (p := fun b => decide ¬(sig_key b ≤ sig_key a))
            (l := List.insertionSort (fun a b => sig_key b ≤ sig_key a) t)]
        rw [List.filter_append, htw, List.nil_append]
      rw [htw, List.nil_append]
      have hfa : (sig_key a == q) = true := by simp [hq]
      simp only [List.filter_cons, hfa, if_true]
      rw [hdw, ih]
    · have hfa : (sig_key a == q) = false := by simp [hq]
      simp only [List.filter_cons, hfa, Bool.false_eq_true, if_false]
      rw [← List.filter_append, List.takeWhile_append_dropWhile, ih]

lemma selected_of_eq_take (perspectives : List RawItem) (k : Category) :
    selected_of perspectives k =
      (sortDescBySig (pools perspectives k)).take
        (max ((allocations_of perspectives).get k) 0).toNat := by
  simp only [selected_of]
  split_ifs with h
  · rcases h with h | h
    · rw [h]; simp
    · rw [h]; simp [sortDescBySig]
  · rfl

lemma target_size_pos_of_stratified (t : ℤ) (h0 : 0 ≤ t)
    (h : determine_target_size t < t) : 0 < determine_target_size t := by
  simp only [determine_target_size] at *
  split_ifs at * <;> omega

lemma selected_total_le_target (perspectives : List RawItem)
    (h : target_size_of perspectives < (total_generated_of perspectives : ℤ)) :
    (selected_total_of perspectives : ℤ) ≤ target_size_of perspectives := by
  have hpos : 0 < target_size_of perspectives :=
    target_size_pos_of_stratified _ (by positivity) h
  have halloc := allocate_spec
    ⟨((pools perspectives .leftist).length : ℤ), ((pools perspectives .rightist).length : ℤ),
      ((pools perspectives .common).length : ℤ)⟩
    (target_size_of perspectives)
    (by intro k; rcases k <;> simp [Alloc.get])
    hpos
    (by
      simp only [Alloc.sum]
      have : (total_generated_of perspectives : ℤ) =
          ((pools perspectives .leftist).length : ℤ) +
            ((pools perspectives .rightist).length : ℤ) +
            ((pools perspectives .common).length : ℤ) := by
        simp [total_generated_of]
      omega)
  have hlen : ∀ k, ((selected_of perspectives k).length : ℤ) ≤
      (allocations_of perspectives).get k := by
    intro k
    rw [selected_of_eq_take]
    have h1 : ((sortDescBySig (pools perspectives k)).take
        (max ((allocations_of perspectives).get k) 0).toNat).length ≤
        (max ((allocations_of perspectives).get k) 0).toNat :=
      (List.length_take _ _).le.trans (min_le_left _ _)
    have h2 := (halloc.1 k).1
    simp only [allocations_of] at *
    omega
  have hsum := halloc.2
  have h1 := hlen .leftist
  have h2 := hlen .rightist
  have h3 := hlen .common
  have he : (allocations_of perspectives).sum =
      (allocations_of perspectives).get .leftist +
        (allocations_of perspectives).get .rightist +
        (allocations_of perspectives).get .common := rfl
  simp only [selected_total_of, allocations_of] at *
  push_cast
  omega

/-! ### Sample inputs used by the witnesses -/

def sampleFive : List RawItem :=
  [.dict ⟨some (.num 0.1), some (.num 1), 0⟩,
   .dict ⟨some (.num 0.3), some (.num 2), 1⟩,
   .dict ⟨some (.num 0.5), some (.num 3), 2⟩,
   .dict ⟨some (.num 0.7), some (.num 4), 3⟩,
   .dict ⟨some (.num 0.9), some (.num 5), 4⟩]

def sampleNine : List RawItem :=
  [.dict ⟨some (.num 0), some (.num 1), 0⟩,
   .dict ⟨some (.num 0.125), some (.num 2), 1⟩,
   .dict ⟨some (.num 0.25), some (.num 3), 2⟩,
   .dict ⟨some (.num 0.375), some (.num 4), 3⟩,
   .dict ⟨some (.num 0.5), some (.num 5), 4⟩,
   .dict ⟨some (.num 0.625), some (.num 6), 5⟩,
   .dict ⟨some (.num 0.75), some (.num 7), 6⟩,
   .dict ⟨some (.num 0.875), some (.num 8), 7⟩,
   .dict ⟨some (.num 1), some (.num 9), 8⟩]

lemma distribute_direct (perspectives : List RawItem)
    (h : (total_generated_of perspectives : ℤ) ≤ target_size_of perspectives) :
    (distribute_perspectives perspectives).1 = pools perspectives ∧
    (distribute_perspectives perspectives).2.distribution_source = "direct" := by
  rw [distribute_eq, if_pos h]
  exact ⟨rfl, rfl⟩

/-- C1: for every category-count map over the three categories with
non-negative pool sizes and every target with `0 < target < ` total pool
size, `allocate_category_slots` returns one quota per category, each quota
between 0 and its pool size, and the quotas sum to exactly the target
(the provisional proportional rounding plus the two reconciliation loops
always reconcile exactly). -/
theorem claim_C1_allocate_category_slots_exact (counts : Alloc) (target : ℤ)
    (hc : ∀ k, 0 ≤ counts.get k) (h1 : 0 < target) (h2 : target < counts.sum) :
    (∀ k, 0 ≤ (allocate_category_slots counts target).get k ∧
          (allocate_category_slots counts target).get k ≤ counts.get k) ∧
    (allocate_category_slots counts target).sum = target :=
  allocate_spec counts target hc h1 h2

theorem claim_C1_witness :
    (∀ k, 0 ≤ (allocate_category_slots ⟨6, 9, 5⟩ 14).get k ∧
          (allocate_category_slots ⟨6, 9, 5⟩ 14).get k ≤ (Alloc.mk 6 9 5).get k) ∧
    (allocate_category_slots ⟨6, 9, 5⟩ 14).sum = 14 :=
  claim_C1_allocate_category_slots_exact ⟨6, 9, 5⟩ 14 (by decide) (by decide) (by decide)

/-- C2: `determine_target_size` realizes the staircase table: identity up
to 6, then 6, 14, 21, 28 on the bands 7–14, 15–28, 29–77, 78–136, and
identity above 136; in particular 5 maps to 5 and 20 maps to 14. -/
theorem claim_C2_determine_target_size_staircase (total : ℤ) (h : 0 ≤ total) :
    (total ≤ 6 → determine_target_size total = total) ∧
    (7 ≤ total ∧ total ≤ 14 → determine_target_size total = 6) ∧
    (15 ≤ total ∧ total ≤ 28 → determine_target_size total = 14) ∧
    (29 ≤ total ∧ total ≤ 77 → determine_target_size total = 21) ∧
    (78 ≤ total ∧ total ≤ 136 → determine_target_size total = 28) ∧
    (136 < total → determine_target_size total = total) ∧
    determine_target_size 5 = 5 ∧ determine_target_size 20 = 14 := by
  refine ⟨?_, ?_, ?_, ?_, ?_, ?_, by decide, by decide⟩ <;>
    (intro h1; simp only [determine_target_size]; split_ifs <;> omega)

theorem claim_C2_witness :
    ((20 : ℤ) ≤ 6 → determine_target_size 20 = 20) ∧
    (7 ≤ (20 : ℤ) ∧ (20 : ℤ) ≤ 14 → determine_target_size 20 = 6) ∧
    (15 ≤ (20 : ℤ) ∧ (20 : ℤ) ≤ 28 → determine_target_size 20 = 14) ∧
    (29 ≤ (20 : ℤ) ∧ (20 : ℤ) ≤ 77 → determine_target_size 20 = 21) ∧
    (78 ≤ (20 : ℤ) ∧ (20 : ℤ) ≤ 136 → determine_target_size 20 = 28) ∧
    (136 < (20 : ℤ) → determine_target_size 20 = 20) ∧
    determine_target_size 5 = 5 ∧ determine_target_size 20 = 14 :=
  claim_C2_determine_target_size_staircase 20 (by decide)

/-- C4: the pools returned by `distribute_perspectives` always contain at
most `target_size` items in total, and in the stratified case the summary
records `selected_total`, `shortfall = max(0, target_size - selected_total)`
and `distribution_source = "stratified_selection"`. -/
theorem claim_C4_selected_total_bounded (perspectives : List RawItem) :
    (((distribute_perspectives perspectives).1 .leftist).length +
      ((distribute_perspectives perspectives).1 .rightist).length +
      ((distribute_perspectives perspectives).1 .common).length : ℤ) ≤
        (distribute_perspectives perspectives).2.target_size ∧
    (target_size_of perspectives < (total_generated_of perspectives : ℤ) →
      (distribute_perspectives perspectives).2.distribution_source =
        "stratified_selection" ∧
      (distribute_perspectives perspectives).2.selected_total =
        some (selected_total_of perspectives) ∧
      (distribute_perspectives perspectives).2.shortfall =
        some (max 0 (target_size_of perspectives -
          (selected_total_of perspectives : ℤ)))) := by
  rw [distribute_eq]
  split_ifs with h
  · constructor
    · have he : (total_generated_of perspectives : ℤ) =
          ((pools perspectives .leftist).length : ℤ) +
            ((pools perspectives .rightist).length : ℤ) +
            ((pools perspectives .common).length : ℤ) := by
        simp [total_generated_of]
      simp only []
      omega
    · intro h2
      exact absurd h (by omega)
  · have hlt : target_size_of perspectives < (total_generated_of perspectives : ℤ) := by
      omega
    have hle := selected_total_le_target perspectives hlt
    constructor
    · have he : (selected_total_of perspectives : ℤ) =
          ((selected_of perspectives .leftist).length : ℤ) +
            ((selected_of perspectives .rightist).length : ℤ) +
            ((selected_of perspectives .common).length : ℤ) := by
        simp [selected_total_of]
      simp only []
      omega
    · exact fun _ => ⟨rfl, rfl, rfl⟩

lemma sampleNine_stratified :
    target_size_of sampleNine < (total_generated_of sampleNine : ℤ) := by
  norm_num [target_size_of, determine_target_size, total_generated_of, pools,
    normalizedItems, dictsOf, sampleNine, IDKAI.normalize, clamp_bias,
    safe_significance, LEFTIST_THRESHOLD, RIGHTIST_THRESHOLD, List.filter,
    List.filterMap]

lemma sampleFive_total : total_generated_of sampleFive = 5 := by
  norm_num [total_generated_of, pools, normalizedItems, dictsOf, sampleFive,
    IDKAI.normalize, clamp_bias, safe_significance, LEFTIST_THRESHOLD,
    RIGHTIST_THRESHOLD, List.filter, List.filterMap]

theorem claim_C4_witness :
    (distribute_perspectives sampleNine).2.distribution_source =
      "stratified_selection" ∧
    (distribute_perspectives sampleNine).2.selected_total =
      some (selected_total_of sampleNine) ∧
    (distribute_perspectives sampleNine).2.shortfall =
      some (max 0 (target_size_of sampleNine - (selected_total_of sampleNine : ℤ))) :=
  (claim_C4_selected_total_bounded sampleNine).2 sampleNine_stratified

/-- C7: in the stratified case each returned pool is the quota-length
prefix of the stable descending sort of that category's pool by
`significance_y`: the sort is a permutation of the pool, sorted descending
by the significance key, preserves the original relative order of items
with any equal key, and every selected item has significance at least that
of every unselected item. -/
theorem claim_C7_stratified_top_quota (perspectives : List RawItem)
    (h : target_size_of perspectives < (total_generated_of perspectives : ℤ))
    (k : Category) :
    (distribute_perspectives perspectives).1 k =
      (sortDescBySig (pools perspectives k)).take
        (max ((allocations_of perspectives).get k) 0).toNat ∧
    (sortDescBySig (pools perspectives k)).Perm (pools perspectives k) ∧
    ((sortDescBySig (pools perspectives k)).Sorted fun a b => sig_key b ≤ sig_key a) ∧
    (∀ q : ℚ, (sortDescBySig (pools perspectives k)).filter (fun n => sig_key n == q) =
      (pools perspectives k).filter (fun n => sig_key n == q)) ∧
    (∀ x ∈ (distribute_perspectives perspectives).1 k,
      ∀ y ∈ (sortDescBySig (pools perspectives k)).drop
        (max ((allocations_of perspectives).get k) 0).toNat,
      sig_key y ≤ sig_key x) := by
  have hsel : (distribute_perspectives perspectives).1 k =
      (sortDescBySig (pools perspectives k)).take
        (max ((allocations_of perspectives).get k) 0).toNat := by
    rw [distribute_eq, if_neg (by omega)]
    exact selected_of_eq_take perspectives k
  refine ⟨hsel, sortDescBySig_perm _, sortDescBySig_sorted _,
    fun q => sortDescBySig_filter_eq _ q, ?_⟩
  rw [hsel]
  intro x hx y hy
  have hsorted := sortDescBySig_sorted (pools perspectives k)
  rw [List.Sorted, ← List.take_append_drop
    (max ((allocations_of perspectives).get k) 0).toNat
    (sortDescBySig (pools perspectives k)), List.pairwise_append] at hsorted
  exact hsorted.2.2 x hx y hy

theorem claim_C7_witness :
    (distribute_perspectives sampleNine).1 .rightist =
      (sortDescBySig (pools sampleNine .rightist)).take
        (max ((allocations_of sampleNine).get .rightist) 0).toNat ∧
    (sortDescBySig (pools sampleNine .rightist)).Perm (pools sampleNine .rightist) :=
  have h := claim_C7_stratified_top_quota sampleNine sampleNine_stratified .rightist
  ⟨h.1, h.2.1⟩

/-- C8: whenever the computed target size is at least the classified total,
`distribute_perspectives` returns the classified pools unchanged with
`distribution_source = "direct"`; in particular over 5 total classified
items it returns all 5 unfiltered. -/
theorem claim_C8_direct_passthrough (perspectives : List RawItem) :
    ((total_generated_of perspectives : ℤ) ≤ target_size_of perspectives →
      (distribute_perspectives perspectives).1 = pools perspectives ∧
      (distribute_perspectives perspectives).2.distribution_source = "direct") ∧
    (total_generated_of perspectives = 5 →
      (distribute_perspectives perspectives).1 = pools perspectives ∧
      (distribute_perspectives perspectives).2.distribution_source = "direct" ∧
      ((distribute_perspectives perspectives).1 .leftist).length +
        ((distribute_perspectives perspectives).1 .rightist).length +
        ((distribute_perspectives perspectives).1 .common).length = 5) := by
  constructor
  · exact distribute_direct perspectives
  · intro h5
    have hc : (total_generated_of perspectives : ℤ) ≤ target_size_of perspectives := by
      rw [target_size_of, h5]; decide
    obtain ⟨h1, h2⟩ := distribute_direct perspectives hc
    refine ⟨h1, h2, ?_⟩
    rw [h1]
    simpa [total_generated_of] using h5

theorem claim_C8_witness :
    (distribute_perspectives sampleFive).1 = pools sampleFive ∧
    (distribute_perspectives sampleFive).2.distribution_source = "direct" ∧
    ((distribute_perspectives sampleFive).1 .leftist).length +
      ((distribute_perspectives sampleFive).1 .rightist).length +
      ((distribute_perspectives sampleFive).1 .common).length = 5 :=
  (claim_C8_direct_passthrough sampleFive).2 sampleFive_total

/-- C9: classification is by the fixed thresholds on the clamped `bias_x`:
an item lands in `leftist` exactly when `bias_x < 0.428`, in `rightist`
exactly when `bias_x > 0.571`, in `common` otherwise, and the three pools
partition the normalized items. -/
theorem claim_C9_threshold_classification (perspectives : List RawItem) (n : NormItem) :
    (n ∈ pools perspectives .leftist ↔
      n ∈ normalizedItems perspectives ∧ n.bias_x < LEFTIST_THRESHOLD) ∧
    (n ∈ pools perspectives .rightist ↔
      n ∈ normalizedItems perspectives ∧ RIGHTIST_THRESHOLD < n.bias_x) ∧
    (n ∈ pools perspectives .common ↔
      n ∈ normalizedItems perspectives ∧
        LEFTIST_THRESHOLD ≤ n.bias_x ∧ n.bias_x ≤ RIGHTIST_THRESHOLD) ∧
    (pools perspectives .leftist).length + (pools perspectives .rightist).length +
      (pools perspectives .common).length = (normalizedItems perspectives).length := by
  have hLR : LEFTIST_THRESHOLD < RIGHTIST_THRESHOLD := by
    norm_num [LEFTIST_THRESHOLD, RIGHTIST_THRESHOLD]
  refine ⟨?_, ?_, ?_, ?_⟩
  · simp [pools, List.mem_filter]
  · rw [pools, List.mem_filter]
    constructor
    · intro ⟨hm, hp⟩
      simp only [Bool.and_eq_true, Bool.not_eq_true', decide_eq_false_iff_not,
        decide_eq_true_eq] at hp
      exact ⟨hm, hp.2⟩
    · intro ⟨hm, hr⟩
      refine ⟨hm, ?_⟩
      simp only [Bool.and_eq_true, Bool.not_eq_true', decide_eq_false_iff_not,
        decide_eq_true_eq]
      exact ⟨by linarith, hr⟩
  · rw [pools, List.mem_filter]
    constructor
    · intro ⟨hm, hp⟩
      simp only [Bool.and_eq_true, Bool.not_eq_true', decide_eq_false_iff_not,
        decide_eq_true_eq] at hp
      exact ⟨hm, not_lt.mp hp.1, not_lt.mp hp.2⟩
    · intro ⟨hm, h1, h2⟩
      refine ⟨hm, ?_⟩
      simp only [Bool.and_eq_true, Bool.not_eq_true', decide_eq_false_iff_not,
        decide_eq_true_eq]
      exact ⟨not_lt.mpr h1, not_lt.mpr h2⟩
  · simpa [total_generated_of] using pools_partition_length perspectives

/-- C10: `distribute_perspectives` is total and defensive: non-dict entries
are dropped and do not count toward `total_generated`; a numeric `bias_x`
is clamped into `[0, 1]`; an absent or non-numeric `bias_x` becomes 0.5 and
the item is classified as `common`; an absent or non-numeric
`significance_y` becomes 0. -/
theorem claim_C10_defensive_parsing (perspectives : List RawItem) :
    (distribute_perspectives perspectives).2.total_generated =
      (dictsOf perspectives).length ∧
    (∀ q : ℚ, clamp_bias (some (.num q)) = max 0 (min 1 q)) ∧
    clamp_bias none = 0.5 ∧
    clamp_bias (some .other) = 0.5 ∧
    (∀ v, 0 ≤ clamp_bias v ∧ clamp_bias v ≤ 1) ∧
    safe_significance none = 0 ∧
    safe_significance (some .other) = 0 ∧
    (∀ d : PDict, d ∈ dictsOf perspectives →
      (d.bias_x = none ∨ d.bias_x = some .other) →
      IDKAI.normalize d ∈ pools perspectives .common) := by
  refine ⟨?_, fun q => rfl, rfl, rfl, ?_, rfl, rfl, ?_⟩
  · rw [distribute_eq]
    split_ifs with h <;>
      simp only [] <;>
      rw [pools_partition_length, normalizedItems_length]
  · intro v
    match v with
    | none => exact ⟨by norm_num [clamp_bias], by norm_num [clamp_bias]⟩
    | some .other => exact ⟨by norm_num [clamp_bias], by norm_num [clamp_bias]⟩
    | some (.num q) =>
      refine ⟨le_max_left _ _, ?_⟩
      rw [clamp_bias]
      exact max_le (by norm_num) (min_le_left _ _)
  · intro d hd hbad
    have hbias : clamp_bias d.bias_x = 0.5 := by
      rcases hbad with h | h <;> rw [h] <;> rfl
    have hm : IDKAI.normalize d ∈ normalizedItems perspectives :=
      List.mem_map_of_mem IDKAI.normalize hd
    rw [pools, List.mem_filter]
    refine ⟨hm, ?_⟩
    simp only [Bool.and_eq_true, Bool.not_eq_true', decide_eq_false_iff_not]
    have hb : (IDKAI.normalize d).bias_x = 0.5 := hbias
    rw [hb]
    norm_num [LEFTIST_THRESHOLD, RIGHTIST_THRESHOLD]

theorem claim_C10_witness :
    IDKAI.normalize ⟨some .other, none, 7⟩ ∈
      pools [.notDict, .dict ⟨some .other, none, 7⟩] .common ∧
    (distribute_perspectives [.notDict, .dict ⟨some .other, none, 7⟩]).2.total_generated =
      (dictsOf [.notDict, .dict ⟨some .other, none, 7⟩]).length :=
  have h := claim_C10_defensive_parsing [.notDict, .dict ⟨some .other, none, 7⟩]
  ⟨h.2.2.2.2.2.2.2 ⟨some .other, none, 7⟩ (by simp [dictsOf]) (Or.inr rfl), h.1⟩

/-! ### Registry lemmas -/

lemma setJob_map_fst_mem (jobs : List (String × Bool)) (sid : String)
    (h : jobs.any fun j => j.1 == sid) :
    (setJob jobs sid).map Prod.fst = jobs.map Prod.fst := by
  rw [setJob, if_pos h, List.map_map]
  apply List.map_congr_left
  intro j hj
  by_cases hjs : j.1 = sid
  · simp [Function.comp, hjs]
  · simp [Function.comp, hjs]

lemma setJob_map_fst_not_mem (jobs : List (String × Bool)) (sid : String)
    (h : ¬ jobs.any fun j => j.1 == sid) :
    (setJob jobs sid).map Prod.fst = jobs.map Prod.fst ++ [sid] := by
  rw [setJob, if_neg h, List.map_append]
  rfl

lemma setJob_nodup (jobs : List (String × Bool)) (sid : String)
    (hnodup : (jobs.map Prod.fst).Nodup) :
    ((setJob jobs sid).map Prod.fst).Nodup := by
  by_cases h : jobs.any fun j => j.1 == sid
  · rw [setJob_map_fst_mem jobs sid h]; exact hnodup
  · rw [setJob_map_fst_not_mem jobs sid h]
    rw [List.nodup_append]
    refine ⟨hnodup, List.nodup_singleton sid, ?_⟩
    intro x hx
    simp only [List.mem_map] at hx
    obtain ⟨j, hj, hfst⟩ := hx
    simp only [List.any_eq_true, not_exists, not_and] at h
    have := h j hj
    simp only [List.mem_singleton]
    intro hxs
    exact this (by simp [hfst, hxs])

lemma lookupJob_setJob (jobs : List (String × Bool)) (sid : String) :
    lookupJob (setJob jobs sid) sid = some false := by
  rw [setJob]
  split_ifs with h
  · induction jobs with
    | nil => simp at h
    | cons j t ih =>
      by_cases hj : j.1 == sid
      · simp [lookupJob, List.find?, hj]
      · simp only [List.any_cons] at h
        rcases Bool.or_eq_true_iff.mp h with h1 | h2
        · exact absurd h1 (by simpa using hj)
        · simpa [lookupJob, List.find?, hj] using ih h2
  · induction jobs with
    | nil => simp [lookupJob, setJob, List.find?]
    | cons j t ih =>
      simp only [List.any_cons, Bool.or_eq_true_iff, not_or] at h
      simpa [lookupJob, List.find?, h.1] using ih (by simpa using h.2)

lemma lookupJob_cons_ne (j : String × Bool) (t : List (String × Bool)) (sid : String)
    (h : ¬ j.1 = sid) : lookupJob (j :: t) sid = lookupJob t sid := by
  simp [lookupJob, List.find?, show (j.1 == sid) = false by simpa using h]

lemma activeCount_setJob (jobs : List (String × Bool)) (sid : String)
    (hnodup : (jobs.map Prod.fst).Nodup)
    (h : ¬ lookupJob jobs sid = some false) :
    activeCount (setJob jobs sid) = activeCount jobs + 1 := by
  induction jobs with
  | nil => simp [setJob, activeCount, List.filter]
  | cons j t ih =>
    by_cases hj : j.1 = sid
    · have hlook : lookupJob (j :: t) sid = some j.2 := by
        simp [lookupJob, List.find?, show (j.1 == sid) = true by simpa using hj]
      have hdone : j.2 = true := by
        by_contra hf
        exact h (by rw [hlook, Bool.not_eq_true] at *; rw [hf])
      have hany : (j :: t).any (fun x => x.1 == sid) = true := by
        simp [List.any_cons, hj]
      have hnotin : ∀ x ∈ t, ¬ (x.1 == sid) = true := by
        intro x hx hxs
        have hmem : sid ∈ t.map Prod.fst := by
          simp only [List.mem_map]
          exact ⟨x, hx, by simpa using hxs⟩
        rw [List.map_cons, List.nodup_cons, hj] at hnodup
        exact hnodup.1 hmem
      rw [setJob, if_pos hany, List.map_cons,
        if_pos (show (j.1 == sid) = true by simpa using hj)]
      have hmapt : t.map (fun x => if x.1 == sid then (x.1, false) else x) = t := by
        calc t.map (fun x => if x.1 == sid then (x.1, false) else x)
            = t.map id := List.map_congr_left fun x hx => by
              simp only [id_eq, if_neg (hnotin x hx)]
          _ = t := List.map_id t
      rw [hmapt]
      simp [activeCount, List.filter, hdone]
    · have hstep : setJob (j :: t) sid = j :: setJob t sid := by
        rw [setJob, setJob]
        by_cases ht : t.any fun x => x.1 == sid
        · rw [if_pos (by simp [List.any_cons, ht]), if_pos ht, List.map_cons,
            if_neg (show ¬ (j.1 == sid) = true by simpa using hj)]
        · rw [if_neg (by simp [List.any_cons, ht, show ¬ (j.1 == sid) = true by simpa using hj]),
            if_neg ht]
          rfl
      rw [hstep]
      have hnd : (t.map Prod.fst).Nodup := by
        rw [List.map_cons, List.nodup_cons] at hnodup
        exact hnodup.2
      have hlk : ¬ lookupJob t sid = some false := by
        rw [← lookupJob_cons_ne j t sid hj]
        exact h
      have := ih hnd hlk
      by_cases hdone : j.2 <;>
        simp [activeCount, List.filter, hdone] at this ⊢ <;> omega

lemma capReached_iff (st : RegistryState) :
    capReached st = true ↔
      ∃ m, st.maxConcurrent = some m ∧ m ≤ (activeCount st.jobs : ℤ) := by
  rcases hmc : st.maxConcurrent with _ | m <;> simp [capReached, hmc]

/-- C3: `PipelineRegistry.start` fails with the already-running error
exactly when the session has a non-finished job; otherwise it fails with
the capacity error exactly when the registry has a bounded cap and the
active-job count has reached it (a cap of 0 or less is stored as
unbounded); otherwise it records a new job for the session, keeping at most
one job per session id and keeping the active count within the cap. -/
theorem claim_C3_registry_start (st : RegistryState) (sid : String)
    (hnodup : (st.jobs.map Prod.fst).Nodup) :
    (registryStart st sid = .error .alreadyRunning ↔
      lookupJob st.jobs sid = some false) ∧
    (¬ lookupJob st.jobs sid = some false →
      (registryStart st sid = .error .capacityExceeded ↔
        ∃ m, st.maxConcurrent = some m ∧ m ≤ (activeCount st.jobs : ℤ))) ∧
    (∀ c : ℤ, c ≤ 0 → (mkRegistry (some c)).maxConcurrent = none) ∧
    (∀ st2, registryStart st sid = .ok st2 →
      (st2.jobs.map Prod.fst).Nodup ∧
      lookupJob st2.jobs sid = some false ∧
      activeCount st2.jobs = activeCount st.jobs + 1 ∧
      (∀ m, st.maxConcurrent = some m → (activeCount st2.jobs : ℤ) ≤ m)) := by
  refine ⟨?_, ?_, ?_, ?_⟩
  · rw [registryStart]
    split_ifs with h h2 <;> simp [h]
  · intro h
    rw [registryStart, if_neg h]
    split_ifs with h2
    · simpa using (capReached_iff st).mp h2
    · simp only [false_iff]
      intro hex
      exact h2 ((capReached_iff st).mpr hex)
  · intro c hc
    rw [mkRegistry]
    simp only [if_neg (by omega : ¬ 0 < c)]
  · intro st2 hok
    rw [registryStart] at hok
    split_ifs at hok with h h2
    injection hok with he
    have hjobs : st2.jobs = setJob st.jobs sid := by rw [← he]
    have hcap : ∀ m, st.maxConcurrent = some m → (activeCount st.jobs : ℤ) < m := by
      intro m hm
      by_contra hge
      exact h2 ((capReached_iff st).mpr ⟨m, hm, by omega⟩)
    have hact : activeCount st2.jobs = activeCount st.jobs + 1 := by
      rw [hjobs]; exact activeCount_setJob st.jobs sid hnodup h
    refine ⟨?_, ?_, hact, ?_⟩
    · rw [hjobs]; exact setJob_nodup st.jobs sid hnodup
    · rw [hjobs]; exact lookupJob_setJob st.jobs sid
    · intro m hm
      have h1 := hcap m hm
      omega

theorem claim_C3_witness :
    registryStart ⟨some 2, [("a", true), ("b", false)]⟩ "c" =
      .ok ⟨some 2, [("a", true), ("b", false), ("c", false)]⟩ ∧
    activeCount [("a", true), ("b", false), ("c", false)] =
      activeCount [("a", true), ("b", false)] + 1 ∧
    (activeCount [("a", true), ("b", false), ("c", false)] : ℤ) ≤ 2 ∧
    lookupJob [("a", true), ("b", false), ("c", false)] "c" = some false :=
  have hok : registryStart ⟨some 2, [("a", true), ("b", false)]⟩ "c" =
      .ok ⟨some 2, [("a", true), ("b", false), ("c", false)]⟩ := by rfl
  have h := (claim_C3_registry_start ⟨some 2, [("a", true), ("b", false)]⟩ "c"
    (by simp)).2.2.2 ⟨some 2, [("a", true), ("b", false), ("c", false)]⟩ hok
  ⟨hok, h.2.2.1, h.2.2.2 2 rfl, h.2.1⟩

/-- C5: whenever the guarded pipeline run inside `execute_pipeline` raises
(any exception of the `try` block, including the missing-backend
`RuntimeError` and the empty-result `RuntimeError`), the handler persists a
failed `module3` record whose payload carries the error message, reverts
the session status to `module2_completed`, and propagates nothing to the
caller. -/
theorem claim_C5_failure_persistence (env : RunEnv) (db : Db) (e : String)
    (hfetch : env.fetchErr = none) (hload : env.loadErr = none)
    (hfail : (pipelineBody env { db with sessionStatus := "module3_processing" }).2 =
      some e) :
    (execute_pipeline env db).1.sessionStatus = "module2_completed" ∧
    (execute_pipeline env db).1.module3 = some (.failed e, "failed") ∧
    (execute_pipeline env db).2 = none := by
  rcases hpb : pipelineBody env { db with sessionStatus := "module3_processing" }
    with ⟨db2, r2⟩
  rw [hpb] at hfail
  simp only at hfail
  subst hfail
  simp [execute_pipeline, hfetch, hload, hpb, handleRunFailure]

theorem claim_C5_witness :
    (execute_pipeline
        ⟨none, none, .error
          "No endpoint provided. Set VERTEX_ENDPOINT or supply endpoint explicitly."⟩
        ⟨"module2_completed", none⟩).1.sessionStatus = "module2_completed" ∧
    (execute_pipeline
        ⟨none, none, .error
          "No endpoint provided. Set VERTEX_ENDPOINT or supply endpoint explicitly."⟩
        ⟨"module2_completed", none⟩).1.module3 =
      some (.failed
        "No endpoint provided. Set VERTEX_ENDPOINT or supply endpoint explicitly.",
        "failed") ∧
    (execute_pipeline
        ⟨none, none, .error
          "No endpoint provided. Set VERTEX_ENDPOINT or supply endpoint explicitly."⟩
        ⟨"module2_completed", none⟩).2 = none :=
  claim_C5_failure_persistence
    ⟨none, none, .error
      "No endpoint provided. Set VERTEX_ENDPOINT or supply endpoint explicitly."⟩
    ⟨"module2_completed", none⟩
    "No endpoint provided. Set VERTEX_ENDPOINT or supply endpoint explicitly."
    rfl rfl rfl

/-- C6: the significance taken from the input payload is always clamped
into `[0, 1]` (an out-of-range numeric value is clamped, not rejected), and
the perspective count is `ceil(128 * s ** 2.8 + 8)` of the clamped
significance: 8 when the clamped significance is 0 and 136 when it is 1. -/
theorem claim_C6_significance_clamp_count (ss sg : Option Val) :
    (0 ≤ extract_significance ss sg ∧ extract_significance ss sg ≤ 1) ∧
    (∀ q : ℚ, ss = some (.num q) → ¬(0 ≤ q ∧ q ≤ 1) →
      extract_significance ss sg = max 0 (min 1 q)) ∧
    (extract_significance ss sg = 0 →
      perspective_count_spec ((extract_significance ss sg : ℚ) : ℝ) 8) ∧
    (extract_significance ss sg = 1 →
      perspective_count_spec ((extract_significance ss sg : ℚ) : ℝ) 136) := by
  refine ⟨?_, ?_, ?_, ?_⟩
  · simp only [extract_significance]
    split_ifs with h
    · exact ⟨h.1, h.2⟩
    · exact ⟨le_max_left _ _, max_le (by norm_num) (min_le_left _ _)⟩
  · intro q hss hnr
    simp only [extract_significance, hss]
    rw [if_neg hnr]
  · intro h0
    rw [h0, perspective_count_spec]
    have he : (128 : ℝ) * ((0 : ℚ) : ℝ) ^ (2.8 : ℝ) + 8 = ((8 : ℤ) : ℝ) := by
      rw [Rat.cast_zero, Real.zero_rpow (by norm_num)]
      norm_num
    rw [he, Int.ceil_intCast]
  · intro h1
    rw [h1, perspective_count_spec]
    have he : (128 : ℝ) * ((1 : ℚ) : ℝ) ^ (2.8 : ℝ) + 8 = ((136 : ℤ) : ℝ) := by
      rw [Rat.cast_one, Real.one_rpow]
      norm_num
    rw [he, Int.ceil_intCast]

theorem claim_C6_witness :
    0 ≤ extract_significance (some (.num (7/2))) none ∧
    extract_significance (some (.num (7/2))) none ≤ 1 ∧
    extract_significance (some (.num (7/2))) none = max 0 (min 1 (7/2)) ∧
    perspective_count_spec
      ((extract_significance (some (.num (7/2))) none : ℚ) : ℝ) 136 :=
  have h := claim_C6_significance_clamp_count (some (.num (7/2))) none
  have h1 : extract_significance (some (.num (7/2))) none = 1 := by
    norm_num [extract_significance]
  ⟨h.1.1, h.1.2, h.2.1 (7/2) rfl (by norm_num), h.2.2.2 h1⟩

end IDKAI
